import Mathlib

/-!
Verification of the grademark backtesting engine (src/src/lib/backtest.ts) and
its trade analyzer (the `analyze` function of the repository).

The embedding follows the TypeScript source closely:
* prices and other JS numbers are rationals (`ℚ`); integer timestamps
  (`Date.getTime()` milliseconds) are `ℤ`;
* divisions whose JS result can be `NaN` or `±Infinity` and which the source
  stores without a zero guard are modelled with `JReal` and `jsDiv`, which
  reproduce IEEE division of finite operands by zero; all other divisions in
  the source are reachable only with nonzero denominators along the behaviours
  studied here and use rational division;
* the mutable `openPosition` object is threaded as an explicit record;
* callbacks of a strategy are modelled as Lean functions; a callback handle
  (`enterPosition` / `exitPosition`) is modelled by the callback returning
  `some` of the arguments of its (single) call, or `none` when it does not
  call the handle;
* `throw` is modelled with `Except String`.
-/

namespace Grademark

/-- A JS number outcome for operations that can leave the finite range:
a finite rational, `NaN`, `Infinity` or `-Infinity`. -/
inductive JReal where
  | num (q : ℚ)
  | nan
  | inf
  | negInf
deriving DecidableEq, Repr

/-- JS division of two finite numbers: division by zero yields `NaN` for a
zero numerator and a signed infinity otherwise. -/
def jsDiv (a b : ℚ) : JReal :=
  if b = 0 then (if a = 0 then .nan else if 0 < a then .inf else .negInf)
  else .num (a / b)

/-- JS `Math.round`: round half toward positive infinity. -/
def jsRound (q : ℚ) : ℤ := ⌊q + 1 / 2⌋

/-- JS truthiness of a possibly-absent number (`undefined`, `0` and `NaN` are
falsy; `ℚ` has no `NaN`). -/
def jsTruthyOpt (o : Option ℚ) : Bool :=
  match o with
  | some q => q ≠ 0
  | none => false

/-- JS truthiness of a `JReal` (`0` and `NaN` are falsy, infinities truthy). -/
def jsTruthyJ (x : JReal) : Bool :=
  match x with
  | .num q => q ≠ 0
  | .nan => false
  | .inf => true
  | .negInf => true

/-- JS addition lifted to `JReal` (used by the analyzer's average of
R-multiples, which may contain infinities). -/
def jrealAdd (a b : JReal) : JReal :=
  match a, b with
  | .nan, _ => .nan
  | _, .nan => .nan
  | .inf, .negInf => .nan
  | .negInf, .inf => .nan
  | .inf, _ => .inf
  | _, .inf => .inf
  | .negInf, _ => .negInf
  | _, .negInf => .negInf
  | .num x, .num y => .num (x + y)

/-- JS division of a `JReal` by a finite number. -/
def jrealDivQ (a : JReal) (b : ℚ) : JReal :=
  match a with
  | .num x => jsDiv x b
  | .nan => .nan
  | .inf => if b < 0 then .negInf else .inf
  | .negInf => if b < 0 then .inf else .negInf

/-- `TradeDirection` from src/src/lib/strategy.ts. -/
inductive TradeDirection where
  | Long
  | Short
deriving DecidableEq, Repr

/-- An OHLC price bar (`IBar`); `time` is a millisecond timestamp. The field
`open` is written `«open»` because `open` is a Lean keyword. -/
structure Bar where
  time : ℤ
  «open» : ℚ
  high : ℚ
  low : ℚ
  close : ℚ
deriving DecidableEq, Repr

/-- A `{time, value}` sample of one of the recorded series. -/
abbrev Sample := ℤ × ℚ

/-- `IPosition`: the mutable state of the single open position. -/
structure Position where
  direction : TradeDirection
  entryTime : ℤ
  entryPrice : ℚ
  growth : ℚ
  profit : ℚ
  profitPct : ℚ
  holdingPeriod : ℕ
  curRateOfReturn : ℚ
  runUp : ℚ
  initialStopPrice : Option ℚ := none
  curStopPrice : Option ℚ := none
  initialUnitRisk : Option ℚ := none
  initialRiskPct : Option ℚ := none
  curRiskPct : Option ℚ := none
  curRMultiple : Option JReal := none
  profitTarget : Option ℚ := none
  riskSeries : Option (List Sample) := none
  rateOfReturnSeries : Option (List Sample) := none
  stopPriceSeries : Option (List Sample) := none
deriving DecidableEq, Repr

/-- `ITrade`: the immutable record emitted when a position is closed. -/
structure Trade where
  direction : TradeDirection
  entryTime : ℤ
  entryPrice : ℚ
  exitTime : ℤ
  exitPrice : ℚ
  profit : ℚ
  profitPct : ℚ
  growth : ℚ
  riskPct : Option ℚ
  riskSeries : Option (List Sample)
  rateOfReturnSeries : Option (List Sample)
  rmultiple : Option JReal
  holdingPeriod : ℕ
  exitReason : String
  stopPrice : Option ℚ
  stopPriceSeries : Option (List Sample)
  profitTarget : Option ℚ
  runUp : ℚ
deriving DecidableEq, Repr

/-- `updatePosition` (backtest.ts lines 15-28): mark an open position to
market at `bar.open`.  `curRMultiple = profit / unitRisk` is stored through
`jsDiv` because the source divides without a zero guard. -/
def updatePosition (position : Position) (bar : Bar) : Position :=
  let price := bar.«open»
  let lastGrowth := position.growth
  let profit :=
    match position.direction with
    | .Long => price - position.entryPrice
    | .Short => position.entryPrice - price
  let profitPct := profit / position.entryPrice * 100
  let growth :=
    match position.direction with
    | .Long => price / position.entryPrice
    | .Short => (position.entryPrice * 2 - price) / position.entryPrice
  let p1 := { position with profit := profit, profitPct := profitPct, growth := growth }
  let p2 :=
    match position.curStopPrice with
    | some csp =>
      let unitRisk :=
        match position.direction with
        | .Long => price - csp
        | .Short => csp - price
      { p1 with curRiskPct := some (unitRisk / price * 100),
                curRMultiple := some (jsDiv profit unitRisk) }
    | none => p1
  { p2 with holdingPeriod := p2.holdingPeriod + 1,
            curRateOfReturn := growth / lastGrowth - 1 }

/-- `finalizePosition` (backtest.ts lines 37-74): close a position at
`exitPrice` and produce a trade.  Fees are applied here and only here:
`growth = growth - growth * fees`. -/
def finalizePosition (position : Position) (exitTime : ℤ) (exitPrice : ℚ)
    (exitReason : String) (fees : ℚ) : Trade :=
  let profit :=
    match position.direction with
    | .Long => exitPrice - position.entryPrice
    | .Short => position.entryPrice - exitPrice
  let rmultiple : Option JReal := position.initialUnitRisk.map (fun iur => jsDiv profit iur)
  let lastGrowth := position.growth
  let growth :=
    match position.direction with
    | .Long => exitPrice / position.entryPrice
    | .Short => (position.entryPrice * 2 - exitPrice) / position.entryPrice
  let newGrowth := growth - growth * fees
  let curRateOfReturn := newGrowth / lastGrowth - 1
  let rorSeries :=
    match position.rateOfReturnSeries with
    | some l => some (l ++ [(exitTime, curRateOfReturn)])
    | none => none
  { direction := position.direction
    entryTime := position.entryTime
    entryPrice := position.entryPrice
    exitTime := exitTime
    exitPrice := exitPrice
    profit := profit
    profitPct := profit / position.entryPrice * 100
    growth := newGrowth
    riskPct := position.initialRiskPct
    riskSeries := position.riskSeries
    rateOfReturnSeries := rorSeries
    rmultiple := rmultiple
    holdingPeriod := position.holdingPeriod + 1
    exitReason := exitReason
    stopPrice := position.curStopPrice
    stopPriceSeries := position.stopPriceSeries
    profitTarget := position.profitTarget
    runUp := position.runUp }

/-- `PositionStatus` (backtest.ts lines 76-81). -/
inductive PositionStatus where
  | None
  | Enter
  | Position
  | Exit
deriving DecidableEq, Repr

/-- `IBacktestOptions`. -/
structure BacktestOptions where
  recordStopPrice : Bool := false
  recordRisk : Bool := false
  recordRateOfReturn : Bool := false
deriving DecidableEq, Repr

/-- The context passed to `stopLoss` / `trailingStopLoss` / `profitTarget` /
`exitRule` callbacks.  The opaque `parameters` value is not modelled: a Lean
callback can close over any data it needs. -/
structure RuleContext where
  entryPrice : ℚ
  position : Position
  bar : Bar
  lookback : List Bar

/-- The context passed to the `entryRule` callback. -/
structure EntryContext where
  bar : Bar
  lookback : List Bar

/-- `IStrategy`: the record of user callbacks.  `entryRule` returns
`some direction` when it calls the `enterPosition` handle (a call with no
direction argument defaults to `Long`); `exitRule` returns
`some (price?, reason?)` when it calls the `exitPosition` handle. -/
structure Strategy where
  lookbackPeriod : Option ℕ := none
  entryRule : EntryContext → Option TradeDirection
  exitRule : Option (RuleContext → Option (Option ℚ × Option String)) := none
  stopLoss : Option (RuleContext → ℚ) := none
  trailingStopLoss : Option (RuleContext → ℚ) := none
  profitTarget : Option (RuleContext → ℚ) := none
  fees : Option ℚ := none
  prepIndicators : Option (List Bar → List Bar) := none

/-- `strategy.lookbackPeriod || 1` (backtest.ts line 126): `0` is falsy. -/
def effLookbackPeriod (strategy : Strategy) : ℕ :=
  match strategy.lookbackPeriod with
  | some n => if n = 0 then 1 else n
  | none => 1

/-- `(strategy.fees && strategy.fees()) || 0` (backtest.ts line 152). -/
def effFees (strategy : Strategy) : ℚ := strategy.fees.getD 0

/-- The indicator series: `strategy.prepIndicators` applied to the input
series when present, else the input series itself (backtest.ts lines 140-147). -/
def prepSeries (strategy : Strategy) (inputSeries : List Bar) : List Bar :=
  match strategy.prepIndicators with
  | some f => f inputSeries
  | none => inputSeries

/-- `exitOnCondition` (backtest.ts lines 216-259).  Returns
`some (price?, reason?)` when `exitPosition` was called during the check, in
the source's order: stop-loss, then profit target, then the strategy's
`exitRule`, each with an early `return`. -/
def exitOnCondition (strategy : Strategy) (position : Position) (bar : Bar)
    (lookback : List Bar) : Option (Option ℚ × Option String) :=
  let ruleCheck : Option (Option ℚ × Option String) :=
    match strategy.exitRule with
    | some f => f ⟨position.entryPrice, position, bar, lookback⟩
    | none => none
  let targetCheck : Option (Option ℚ × Option String) :=
    match position.profitTarget with
    | some pt =>
      match position.direction with
      | .Long => if pt ≤ bar.high then some (some pt, some "profit-target") else ruleCheck
      | .Short => if bar.low ≤ pt then some (some pt, some "profit-target") else ruleCheck
    | none => ruleCheck
  match position.curStopPrice with
  | some csp =>
    match position.direction with
    | .Long =>
      if bar.low ≤ csp then some (some (min csp bar.«open»), some "stop-loss") else targetCheck
    | .Short =>
      if csp ≤ bar.high then some (some (max csp bar.«open»), some "stop-loss") else targetCheck
  | none => targetCheck

/-- Restatement of the intrabar stop-loss check following the words of the
specification, for comparison with `exitOnCondition`. -/
def specStopLossCheck (position : Position) (bar : Bar) : Option (Option ℚ × Option String) :=
  match position.curStopPrice with
  | some csp =>
    match position.direction with
    | .Long =>
      if bar.low ≤ csp then some (some (min csp bar.«open»), some "stop-loss") else none
    | .Short =>
      if csp ≤ bar.high then some (some (max csp bar.«open»), some "stop-loss") else none
  | none => none

/-- Restatement of the intrabar profit-target check following the words of the
specification, for comparison with `exitOnCondition`. -/
def specProfitTargetCheck (position : Position) (bar : Bar) : Option (Option ℚ × Option String) :=
  match position.profitTarget with
  | some pt =>
    match position.direction with
    | .Long => if pt ≤ bar.high then some (some pt, some "profit-target") else none
    | .Short => if bar.low ≤ pt then some (some pt, some "profit-target") else none
  | none => none

/-- Restatement of the strategy exit-rule invocation following the words of
the specification, for comparison with `exitOnCondition`. -/
def specExitRuleCheck (strategy : Strategy) (position : Position) (bar : Bar)
    (lookback : List Bar) : Option (Option ℚ × Option String) :=
  match strategy.exitRule with
  | some f => f ⟨position.entryPrice, position, bar, lookback⟩
  | none => none

/-- The mutable state of the main `for` loop of `backtest`
(backtest.ts lines 157-214 and 261). -/
structure LoopState where
  lookbackBuffer : List Bar
  positionStatus : PositionStatus
  exitPrice : Option ℚ
  exitReason : Option String
  positionDirection : TradeDirection
  openPosition : Option Position
  completedTrades : List Trade

/-- The loop state before the first bar. -/
def initState : LoopState :=
  { lookbackBuffer := []
    positionStatus := .None
    exitPrice := none
    exitReason := none
    positionDirection := .Long
    openPosition := none
    completedTrades := [] }

/-- `lookbackBuffer.push(bar)` on a circular buffer of capacity `cap`:
append, keeping only the most recent `cap` bars. -/
def pushBuffer (cap : ℕ) (buf : List Bar) (bar : Bar) : List Bar :=
  let l := buf ++ [bar]
  if cap < l.length then l.drop (l.length - cap) else l

/-- The `PositionStatus.Enter` case, steps 1-6 (backtest.ts lines 282-337):
open a position at `bar.open`, compute the initial stop, unit risk and risk
series, the empty rate-of-return series, and the profit target.  This is the
position state against which the same-bar `exitOnCondition` runs. -/
def enterBasePosition (strategy : Strategy) (options : BacktestOptions)
    (dir : TradeDirection) (bar : Bar) (lookback : List Bar) : Position :=
  let entryPrice := bar.«open»
  let pos0 : Position :=
    { direction := dir
      entryTime := bar.time
      entryPrice := entryPrice
      growth := 1
      profit := 0
      profitPct := 0
      holdingPeriod := 0
      curRateOfReturn := 0
      runUp := 0 }
  let pos1 :=
    match strategy.stopLoss with
    | some f =>
      let d := f ⟨entryPrice, pos0, bar, lookback⟩
      let isp :=
        match dir with
        | .Long => entryPrice - d
        | .Short => entryPrice + d
      { pos0 with initialStopPrice := some isp, curStopPrice := some isp }
    | none => pos0
  let pos2 :=
    match pos1.curStopPrice with
    | some csp =>
      let iur :=
        match dir with
        | .Long => entryPrice - csp
        | .Short => csp - entryPrice
      let irp := iur / entryPrice * 100
      { pos1 with initialUnitRisk := some iur
                  initialRiskPct := some irp
                  curRiskPct := some irp
                  curRMultiple := some (.num 0)
                  riskSeries := if options.recordRisk then some [(bar.time, irp)] else none }
    | none => pos1
  let pos3 :=
    if options.recordRateOfReturn then { pos2 with rateOfReturnSeries := some [] } else pos2
  match strategy.profitTarget with
  | some f =>
    let d := f ⟨entryPrice, pos3, bar, lookback⟩
    let target :=
      match dir with
      | .Long => entryPrice + d
      | .Short => entryPrice - d
    { pos3 with profitTarget := some target }
  | none => pos3

/-- The `PositionStatus.Enter` case, step 8 (backtest.ts lines 344-369):
seed or tighten the stop from the trailing stop distance.  On entry the
absence test on `initialStopPrice` is `=== undefined`. -/
def applyTrailingStopOnEntry (strategy : Strategy) (options : BacktestOptions)
    (pos : Position) (bar : Bar) (lookback : List Bar) : Position :=
  match strategy.trailingStopLoss with
  | some f =>
    let d := f ⟨pos.entryPrice, pos, bar, lookback⟩
    let tsp :=
      match pos.direction with
      | .Long => bar.close - d
      | .Short => bar.close + d
    match pos.initialStopPrice with
    | none =>
      let p := { pos with curStopPrice := some tsp }
      if options.recordStopPrice then { p with stopPriceSeries := some [(bar.time, tsp)] } else p
    | some isp =>
      let ispNew :=
        match pos.direction with
        | .Long => max isp tsp
        | .Short => min isp tsp
      let p := { pos with initialStopPrice := some ispNew, curStopPrice := some ispNew }
      if options.recordStopPrice then { p with stopPriceSeries := some [(bar.time, ispNew)] }
      else p
  | none => pos

/-- The `PositionStatus.Position` trailing-stop reevaluation
(backtest.ts lines 399-426).  The source tests `initialStopPrice ?`
(JS truthiness), so a zero initial stop behaves as an absent one here, and
the new stop is not clamped against the previous stop: it is recomputed from
`bar.close` each bar. -/
def updateTrailingStop (strategy : Strategy) (options : BacktestOptions)
    (pos : Position) (bar : Bar) (lookback : List Bar) : Position :=
  match strategy.trailingStopLoss with
  | some f =>
    let d := f ⟨pos.entryPrice, pos, bar, lookback⟩
    let nts :=
      match pos.direction with
      | .Long => bar.close - d
      | .Short => bar.close + d
    let cs :=
      match pos.initialStopPrice with
      | some isp =>
        if isp = 0 then nts
        else
          match pos.direction with
          | .Long => max isp nts
          | .Short => min isp nts
      | none => nts
    let p := { pos with curStopPrice := some cs }
    if options.recordStopPrice then
      { p with stopPriceSeries := p.stopPriceSeries.map (fun l => l ++ [(bar.time, cs)]) }
    else p
  | none => pos

/-- The `PositionStatus.Position` mark-to-market block
(backtest.ts lines 381-395): `updatePosition`, then append the risk and
rate-of-return samples that are enabled. -/
def stepPositionUpdate (options : BacktestOptions) (pos : Position) (bar : Bar) : Position :=
  let pos1 := updatePosition pos bar
  let pos2 :=
    match pos1.curRiskPct with
    | some crp =>
      if options.recordRisk then
        { pos1 with riskSeries := pos1.riskSeries.map (fun l => l ++ [(bar.time, crp)]) }
      else pos1
    | none => pos1
  if options.recordRateOfReturn then
    { pos2 with rateOfReturnSeries :=
        pos2.rateOfReturnSeries.map (fun l => l ++ [(bar.time, pos2.curRateOfReturn)]) }
  else pos2

/-- The run-up update shared by the `Enter` and `Position` cases
(backtest.ts lines 371-375 and 427-431). -/
def applyRunUp (pos : Position) (bar : Bar) : Position :=
  match pos.direction with
  | .Long =>
    if pos.runUp < bar.high - pos.entryPrice then { pos with runUp := bar.high - pos.entryPrice }
    else pos
  | .Short =>
    if pos.runUp < pos.entryPrice - bar.low then { pos with runUp := pos.entryPrice - bar.low }
    else pos

/-- One iteration of the main `for` loop of `backtest`
(backtest.ts lines 261-443): push into the lookback buffer, skip the dispatch
until the buffer is full, then dispatch on the status observed at the start
of the bar. -/
def stepBar (strategy : Strategy) (options : BacktestOptions) (lookbackPeriod : ℕ)
    (fees : ℚ) (state : LoopState) (bar : Bar) : LoopState :=
  let state := { state with lookbackBuffer := pushBuffer lookbackPeriod state.lookbackBuffer bar }
  if state.lookbackBuffer.length < lookbackPeriod then state
  else
    match state.positionStatus with
    | .None =>
      match strategy.entryRule ⟨bar, state.lookbackBuffer⟩ with
      | some dir => { state with positionStatus := .Enter, positionDirection := dir }
      | none => state
    | .Enter =>
      let pos4 := enterBasePosition strategy options state.positionDirection bar state.lookbackBuffer
      -- positionStatus is set to Position, then the intrabar exit check runs on this same bar
      let exitCall := exitOnCondition strategy pos4 bar state.lookbackBuffer
      let pos6 := applyRunUp (applyTrailingStopOnEntry strategy options pos4 bar state.lookbackBuffer) bar
      match exitCall with
      | some (pe, re) =>
        { state with openPosition := some pos6, positionStatus := .Exit,
                     exitPrice := pe, exitReason := re }
      | none => { state with openPosition := some pos6, positionStatus := .Position }
    | .Position =>
      match state.openPosition with
      | none => state -- unreachable: the source asserts an open position here
      | some pos =>
        let pos3 := stepPositionUpdate options pos bar
        let exitCall := exitOnCondition strategy pos3 bar state.lookbackBuffer
        let pos5 := applyRunUp (updateTrailingStop strategy options pos3 bar state.lookbackBuffer) bar
        match exitCall with
        | some (pe, re) =>
          { state with openPosition := some pos5, positionStatus := .Exit,
                       exitPrice := pe, exitReason := re }
        | none => { state with openPosition := some pos5 }
    | .Exit =>
      match state.openPosition with
      | none => state -- unreachable: the source asserts an open position here
      | some pos =>
        let price := state.exitPrice.getD bar.«open»
        let reason := state.exitReason.getD "exit-rule"
        let trade := finalizePosition pos bar.time price reason fees
        { state with completedTrades := state.completedTrades ++ [trade]
                     openPosition := none
                     positionStatus := .None
                     exitPrice := none
                     exitReason := none }

/-- The state after the main loop has consumed the whole indicator series. -/
def loopFinal (strategy : Strategy) (options : BacktestOptions)
    (inputSeries : List Bar) : LoopState :=
  (prepSeries strategy inputSeries).foldl
    (stepBar strategy options (effLookbackPeriod strategy) (effFees strategy)) initState

/-- `Math.round((last.time - first.time) / count)` (backtest.ts line 131),
computed on the input series. -/
def inferredTimeframe (inputSeries : List Bar) : ℤ :=
  match inputSeries.head?, inputSeries.getLast? with
  | some fb, some lb => jsRound (((lb.time - fb.time : ℤ) : ℚ) / (inputSeries.length : ℚ))
  | _, _ => 0

/-- `backtest` (backtest.ts lines 105-453): validate the inputs, run the
bar loop, and finalize any position still open at `last.close`. -/
def backtest (strategy : Strategy) (inputSeries : List Bar)
    (options : BacktestOptions) : Except String (List Trade) :=
  if inputSeries.isEmpty then
    .error "Expect input data series to contain at last 1 bar."
  else if inputSeries.length < effLookbackPeriod strategy then
    .error "You have less input data than your lookback period, the size of your input data should be some multiple of your lookback period."
  else
    let timeframe := inferredTimeframe inputSeries
    let fs := loopFinal strategy options inputSeries
    match fs.openPosition, (prepSeries strategy inputSeries).getLast? with
    | some pos, some lastBar =>
      .ok (fs.completedTrades ++
        [finalizePosition pos (lastBar.time + timeframe) lastBar.close "finalize"
          (effFees strategy)])
    | _, _ => .ok fs.completedTrades

/-- The options record of `analyze`; `startingDate` / `endingDate` are
millisecond timestamps.  A caller passing no options behaves like the record
with all fields absent. -/
structure AnalyzeOptions where
  startingDate : Option ℤ := none
  endingDate : Option ℤ := none
  timeframe : Option ℚ := none
deriving DecidableEq, Repr

/-- `IAnalysis` as populated by `analyze`.  `averageProfitPerTrade` and
`returnOnAccount` are stored through `jsDiv` because the source divides by
`totalTrades` and `|maxDrawdownPct|` without a zero guard.  The three scalars
`sharpeRatio`, `rmultipleStdDev` and `systemQuality` of the source involve a
floating-point square root (`std`), which is outside this rational embedding;
no claim refers to their values and they are not carried here. -/
structure Analysis where
  startingCapital : ℚ
  finalCapital : ℚ
  profit : ℚ
  profitPct : ℚ
  growth : ℚ
  totalTrades : ℕ
  barCount : ℕ
  maxDrawdown : ℚ
  maxDrawdownPct : ℚ
  maxRiskPct : Option ℚ
  expectency : Option JReal
  profitFactor : Option ℚ
  proportionProfitable : ℚ
  percentProfitable : ℚ
  returnOnAccount : JReal
  averageProfitPerTrade : JReal
  numWinningTrades : ℕ
  numLosingTrades : ℕ
  averageWinningTrade : ℚ
  averageLosingTrade : ℚ
  expectedValue : ℚ
deriving DecidableEq, Repr

/-- The running state of the analyzer's streaming reducer
(part_000 lines 22-36). -/
structure AnalyzeState where
  workingCapital : ℚ
  barCount : ℕ
  peakCapital : ℚ
  workingDrawdown : ℚ
  maxDrawdown : ℚ
  maxDrawdownPct : ℚ
  totalProfits : ℚ
  totalLosses : ℚ
  numWinningTrades : ℕ
  numLosingTrades : ℕ
  totalTrades : ℕ
  maxRiskPct : Option ℚ
  rateOfReturnList : Option (List ℚ)
deriving DecidableEq, Repr

/-- The timeframe used by the analyzer (part_000 lines 35-40):
`options.timeframe ?? 0`, and when that is falsy and the first trade has a
rate-of-return series, `(exitTime - entryTime) / series.length` — a JS
division that can produce `Infinity` or `NaN` on an empty series. -/
def analyzeTimeframe (opts : AnalyzeOptions) (trades : List Trade) : JReal :=
  let tf0 : ℚ := opts.timeframe.getD 0
  if tf0 ≠ 0 then .num tf0
  else
    match trades.head? with
    | some t =>
      match t.rateOfReturnSeries with
      | some l => jsDiv ((t.exitTime - t.entryTime : ℤ) : ℚ) (l.length : ℚ)
      | none => .num 0
    | none => .num 0

/-- `Math.floor((endingDate - startingDate) / timeframe)` (part_000 line 46).
Dividing a finite number by an infinite timeframe gives `0`; a `NaN`
timeframe is excluded by the truthiness guard before this is used. -/
def dateRangeBarCount (s e : ℤ) (tf : JReal) : ℤ :=
  match tf with
  | .num q => if q = 0 then 0 else ⌊((e - s : ℤ) : ℚ) / q⌋
  | _ => 0

/-- Index of a scattered rate-of-return sample
(`Math.round((sample.time - startingDate) / timeframe)`, part_000 line 58). -/
def scatterIndex (s t : ℤ) (tf : JReal) : ℤ :=
  match tf with
  | .num q => if q = 0 then 0 else jsRound (((t - s : ℤ) : ℚ) / q)
  | _ => 0

/-- Write `v` at integer index `i` of `l` when `i` is in range.  The source's
out-of-range JS array writes (which would extend the array) are not modelled;
no claim depends on the scattered vector's contents. -/
def setAt (l : List ℚ) (i : ℤ) (v : ℚ) : List ℚ :=
  if 0 ≤ i ∧ i.toNat < l.length then l.set i.toNat v else l

/-- One iteration of the analyzer's reducer loop (part_000 lines 50-82). -/
def analyzeStep (startingDate : Option ℤ) (timeframe : JReal)
    (st : AnalyzeState) (trade : Trade) : AnalyzeState :=
  let st := { st with totalTrades := st.totalTrades + 1 }
  let st :=
    match trade.riskPct with
    | some rp => { st with maxRiskPct := some (max rp (st.maxRiskPct.getD 0)) }
    | none => st
  let st :=
    match st.rateOfReturnList, startingDate with
    | some l, some s =>
      let scattered :=
        (trade.rateOfReturnSeries.getD []).foldl
          (fun acc (p : Sample) => setAt acc (scatterIndex s p.1 timeframe) p.2) l
      { st with rateOfReturnList := some scattered }
    | _, _ => st
  let workingCapital := st.workingCapital * trade.growth
  let barCount := st.barCount + trade.holdingPeriod
  let peakAndDrawdown :=
    if workingCapital < st.peakCapital then (st.peakCapital, workingCapital - st.peakCapital)
    else (workingCapital, 0)
  let peakCapital := peakAndDrawdown.1
  let workingDrawdown := peakAndDrawdown.2
  let st :=
    if 0 < trade.profit then
      { st with totalProfits := st.totalProfits + trade.profit,
                numWinningTrades := st.numWinningTrades + 1 }
    else
      { st with totalLosses := st.totalLosses + trade.profit,
                numLosingTrades := st.numLosingTrades + 1 }
  let maxDrawdown := min workingDrawdown st.maxDrawdown
  let maxDrawdownPct := min (maxDrawdown / peakCapital * 100) st.maxDrawdownPct
  { st with workingCapital := workingCapital
            barCount := barCount
            peakCapital := peakCapital
            workingDrawdown := workingDrawdown
            maxDrawdown := maxDrawdown
            maxDrawdownPct := maxDrawdownPct }

/-- The analyzer's reducer folded over the whole trade list, starting from the
initial state of part_000 lines 22-36. -/
def analyzeLoop (startingDate : Option ℤ) (timeframe : JReal) (startingCapital : ℚ)
    (trades : List Trade) (rrl : Option (List ℚ)) : AnalyzeState :=
  trades.foldl (analyzeStep startingDate timeframe)
    { workingCapital := startingCapital
      barCount := 0
      peakCapital := startingCapital
      workingDrawdown := 0
      maxDrawdown := 0
      maxDrawdownPct := 0
      totalProfits := 0
      totalLosses := 0
      numWinningTrades := 0
      numLosingTrades := 0
      totalTrades := 0
      maxRiskPct := none
      rateOfReturnList := rrl }

/-- The derived scalars of `analyze` (part_000 lines 84-143) computed from the
final reducer state. -/
def analyzeResult (startingCapital : ℚ) (trades : List Trade)
    (st : AnalyzeState) : Analysis :=
  let rmultiples := trades.filterMap (fun t => t.rmultiple)
  let expectency : Option JReal :=
    if 0 < rmultiples.length then
      some (jrealDivQ (rmultiples.foldl jrealAdd (.num 0)) (rmultiples.length : ℚ))
    else none
  let absTotalLosses := |st.totalLosses|
  let profitFactor : Option ℚ :=
    if 0 < absTotalLosses then some (st.totalProfits / absTotalLosses) else none
  let profit := st.workingCapital - startingCapital
  let profitPct := profit / startingCapital * 100
  let proportionWinning :=
    if 0 < st.totalTrades then (st.numWinningTrades : ℚ) / (st.totalTrades : ℚ) else 0
  let proportionLosing :=
    if 0 < st.totalTrades then (st.numLosingTrades : ℚ) / (st.totalTrades : ℚ) else 0
  let averageWinningTrade :=
    if 0 < st.numWinningTrades then st.totalProfits / (st.numWinningTrades : ℚ) else 0
  let averageLosingTrade :=
    if 0 < st.numLosingTrades then st.totalLosses / (st.numLosingTrades : ℚ) else 0
  { startingCapital := startingCapital
    finalCapital := st.workingCapital
    profit := profit
    profitPct := profitPct
    growth := st.workingCapital / startingCapital
    totalTrades := st.totalTrades
    barCount := st.barCount
    maxDrawdown := st.maxDrawdown
    maxDrawdownPct := st.maxDrawdownPct
    maxRiskPct := st.maxRiskPct
    expectency := expectency
    profitFactor := profitFactor
    proportionProfitable := proportionWinning
    percentProfitable := proportionWinning * 100
    returnOnAccount := jsDiv profitPct |st.maxDrawdownPct|
    averageProfitPerTrade := jsDiv profit (st.totalTrades : ℚ)
    numWinningTrades := st.numWinningTrades
    numLosingTrades := st.numLosingTrades
    averageWinningTrade := averageWinningTrade
    averageLosingTrade := averageLosingTrade
    expectedValue := proportionWinning * averageWinningTrade +
      proportionLosing * averageLosingTrade }

/-- `analyze` (part_000 lines 13-146).  `now` stands for `new Date()`, the
wall-clock default for a missing `endingDate`.  The function returns the
analysis together with the options record as it stands after the call, making
the source's in-place mutation of `options.endingDate` observable.  A negative
computed date-range length, on which JS `Array(n)` throws a `RangeError`, is
an error. -/
def analyze (now : ℤ) (startingCapital : ℚ) (trades : List Trade)
    (opts : AnalyzeOptions) : Except String (Analysis × AnalyzeOptions) :=
  if startingCapital ≤ 0 then
    .error "Expected 'startingCapital' argument to 'analyze' to be a positive number that specifies the amount of capital used to simulate trading."
  else
    let timeframe := analyzeTimeframe opts trades
    match opts.startingDate with
    | some s =>
      if jsTruthyJ timeframe then
        let e :=
          match opts.endingDate with
          | some e0 => e0
          | none => now
        let optsOut := { opts with endingDate := some e }
        let n := dateRangeBarCount s e timeframe
        if n < 0 then .error "Invalid array length"
        else
          .ok (analyzeResult startingCapital trades
            (analyzeLoop (some s) timeframe startingCapital trades
              (some (List.replicate n.toNat 0))), optsOut)
      else
        .ok (analyzeResult startingCapital trades
          (analyzeLoop (some s) timeframe startingCapital trades none), opts)
    | none =>
      .ok (analyzeResult startingCapital trades
        (analyzeLoop none timeframe startingCapital trades none), opts)

/-! Concrete strategies and bar series used as witnesses and
counterexamples. -/

/-- A strategy that enters Long on the first opportunity and never exits. -/
def holdStrategy : Strategy := { entryRule := fun _ => some .Long }

/-- A Long strategy with a trailing stop distance of 5 and no initial stop. -/
def trailStrategy : Strategy :=
  { entryRule := fun _ => some .Long, trailingStopLoss := some (fun _ => 5) }

/-- A Long strategy whose exit rule fires on every bar. -/
def quickExitStrategy : Strategy :=
  { entryRule := fun _ => some .Long, exitRule := some (fun _ => some (none, none)) }

/-- A Long strategy with an initial stop distance of 5. -/
def stopStrategy : Strategy :=
  { entryRule := fun _ => some .Long, stopLoss := some (fun _ => 5) }

/-- Bars of the trailing-stop scenario: entry at 100, closes 102, 108, 106. -/
def tb0 : Bar := ⟨0, 100, 100, 100, 100⟩

def tb1 : Bar := ⟨1, 100, 102, 99, 102⟩

def tb2 : Bar := ⟨2, 104, 108, 104, 108⟩

def tb3 : Bar := ⟨3, 106, 107, 105, 106⟩

/-- Bars of the immediate-exit scenario. -/
def qb0 : Bar := ⟨0, 100, 100, 100, 100⟩

def qb1 : Bar := ⟨1, 101, 103, 100, 102⟩

def qb2 : Bar := ⟨2, 104, 105, 103, 104⟩

/-- Bars of the zero-unit-risk scenario: the third bar opens exactly at the
stop price 95. -/
def sb0 : Bar := ⟨0, 100, 100, 100, 100⟩

def sb1 : Bar := ⟨1, 100, 101, 99, 100⟩

def sb2 : Bar := ⟨2, 95, 96, 94, 94⟩

/-- Bars of the hold-to-the-end scenario. -/
def hb0 : Bar := ⟨0, 100, 100, 100, 100⟩

def hb1 : Bar := ⟨10, 110, 112, 108, 111⟩

/-- Bars of the stop-hit-on-the-last-bar scenario. -/
def kb0 : Bar := ⟨0, 100, 100, 100, 100⟩

def kb1 : Bar := ⟨1, 100, 101, 94, 95⟩

/-- Placeholder position for total projections out of `Option`. -/
def dummyPosition : Position :=
  { direction := .Long, entryTime := 0, entryPrice := 0, growth := 1, profit := 0,
    profitPct := 0, holdingPeriod := 0, curRateOfReturn := 0, runUp := 0 }

/-- Placeholder trade for total projections out of `Option`. -/
def dummyTrade : Trade :=
  { direction := .Long, entryTime := 0, entryPrice := 0, exitTime := 0, exitPrice := 0,
    profit := 0, profitPct := 0, growth := 1, riskPct := none, riskSeries := none,
    rateOfReturnSeries := none, rmultiple := none, holdingPeriod := 0, exitReason := "",
    stopPrice := none, stopPriceSeries := none, profitTarget := none, runUp := 0 }

/-- Placeholder analysis for total projections out of `Option`. -/
def dummyAnalysis : Analysis :=
  { startingCapital := 0, finalCapital := 0, profit := 0, profitPct := 0, growth := 0,
    totalTrades := 0, barCount := 0, maxDrawdown := 0, maxDrawdownPct := 0,
    maxRiskPct := none, expectency := none, profitFactor := none,
    proportionProfitable := 0, percentProfitable := 0, returnOnAccount := .nan,
    averageProfitPerTrade := .nan, numWinningTrades := 0, numLosingTrades := 0,
    averageWinningTrade := 0, averageLosingTrade := 0, expectedValue := 0 }

/-- The trades of the immediate-exit run with rate-of-return recording on. -/
def quickExitTrades : List Trade :=
  (backtest quickExitStrategy [qb0, qb1, qb2] { recordRateOfReturn := true }).toOption.getD []

/-- The (single) trade of that run. -/
def quickExitTrade : Trade := quickExitTrades.headD dummyTrade

/-- The position left open at the end of the hold-to-the-end run. -/
def holdFinalPosition : Position :=
  (loopFinal holdStrategy {} [hb0, hb1]).openPosition.getD dummyPosition

/-- The position left open (status `Exit`) when the stop is hit on the last
bar. -/
def lastBarStopPosition : Position :=
  (loopFinal stopStrategy {} [kb0, kb1]).openPosition.getD dummyPosition

/-- The hold-to-the-end run with a 10% fee. -/
def holdTradesFee : List Trade :=
  (backtest { holdStrategy with fees := some (1 / 10) } [hb0, hb1] {}).toOption.getD []

/-- The hold-to-the-end run with a zero fee. -/
def holdTradesZeroFee : List Trade :=
  (backtest { holdStrategy with fees := some 0 } [hb0, hb1] {}).toOption.getD []

/-- The analyzer's output on no trades and default options. -/
def emptyTradesRun : Analysis × AnalyzeOptions :=
  (analyze 0 1000 [] {}).toOption.getD (dummyAnalysis, {})

/-- The analyzer's output with a starting date, a timeframe, and no ending
date, at wall-clock time 999. -/
def mutatedOptionsRun : Analysis × AnalyzeOptions :=
  (analyze 999 1000 [] ⟨some 0, none, some 60000⟩).toOption.getD (dummyAnalysis, {})

/-! Invariants used in the proofs. -/

/-- When rate-of-return recording is on, an open position's series has one
sample per completed update. -/
def RorOk (options : BacktestOptions) (position : Position) : Prop :=
  options.recordRateOfReturn = true →
    ∃ l, position.rateOfReturnSeries = some l ∧ l.length = position.holdingPeriod

/-- The corresponding property of an emitted trade. -/
def TradeRorOk (options : BacktestOptions) (t : Trade) : Prop :=
  options.recordRateOfReturn = true →
    ∃ l, t.rateOfReturnSeries = some l ∧ l.length = t.holdingPeriod

/-- The loop invariant carrying `RorOk` for the open position and every
completed trade. -/
def StateRorInv (options : BacktestOptions) (s : LoopState) : Prop :=
  (∀ p, s.openPosition = some p → RorOk options p) ∧
  (∀ t ∈ s.completedTrades, TradeRorOk options t)

/-- The open position exists exactly in the `Position` and `Exit` states. -/
def StatusPosInv (s : LoopState) : Prop :=
  s.openPosition = none ↔ (s.positionStatus = .None ∨ s.positionStatus = .Enter)

/-- Two loop states of the same run under fee `f` and fee `0`: everything
agrees except that completed trades' growths are scaled by `1 - f`. -/
def FeesRel (f : ℚ) (s1 s2 : LoopState) : Prop :=
  s1.lookbackBuffer = s2.lookbackBuffer ∧
  s1.positionStatus = s2.positionStatus ∧
  s1.exitPrice = s2.exitPrice ∧
  s1.exitReason = s2.exitReason ∧
  s1.positionDirection = s2.positionDirection ∧
  s1.openPosition = s2.openPosition ∧
  s1.completedTrades.map (fun t => t.growth) =
    s2.completedTrades.map (fun t => (1 - f) * t.growth)

/-! Helper lemmas. -/

theorem foldl_preserves {α β : Type} (P : α → Prop) (step : α → β → α)
    (h : ∀ s b, P s → P (step s b)) :
    ∀ (l : List β) (s : α), P s → P (l.foldl step s) := by
  intro l
  induction l with
  | nil => intro s hs; exact hs
  | cons b t ih => intro s hs; exact ih _ (h s b hs)

/-! Claim theorems. -/

/-- Claim C1: in the intrabar exit check run while a position is open, the
exit conditions are evaluated in the fixed order stop-loss, then profit
target, then strategy exit rule, with the first match winning; a Long
stop-loss triggers when `bar.low ≤ curStopPrice` with exit price
`min(curStopPrice, bar.open)`, a Short stop-loss when
`bar.high ≥ curStopPrice` with exit price `max(curStopPrice, bar.open)`, and
the reason is `"stop-loss"` (the trigger conditions and prices are stated by
`specStopLossCheck` / `specProfitTargetCheck` / `specExitRuleCheck`). -/
theorem exitOnCondition_eq_spec_chain (strategy : Strategy) (position : Position)
    (bar : Bar) (lookback : List Bar) :
    exitOnCondition strategy position bar lookback =
      (match specStopLossCheck position bar with
       | some e => some e
       | none =>
         match specProfitTargetCheck position bar with
         | some e => some e
         | none => specExitRuleCheck strategy position bar lookback) := by
  unfold exitOnCondition specStopLossCheck specProfitTargetCheck specExitRuleCheck
  rcases position.curStopPrice with _ | s <;>
    rcases position.direction with _ | _ <;>
    rcases position.profitTarget with _ | pt <;>
    rcases strategy.exitRule with _ | f <;>
    simp <;> split <;> simp <;> split <;> simp

/-- Claim C2 (counterexample): for a Long position entered with trailing
distance 5 and no initial stop, over closes 102, 108, 106 the current stop
price after the bar closing at 106 is 101, not 103 — the trailing stop
loosens when the close falls back. -/
theorem trailing_stop_loosens_cex :
    ((loopFinal trailStrategy {} [tb0, tb1, tb2, tb3]).openPosition.bind
      (fun p => p.curStopPrice)) = some 101 ∧
    ¬ ((loopFinal trailStrategy {} [tb0, tb1, tb2, tb3]).openPosition.bind
      (fun p => p.curStopPrice)) = some 103 := by
  constructor
  · with_unfolding_all rfl
  · with_unfolding_all decide

/-- Claim C2 (amended): with no initial stop, the trailing stop follows the
close at the fixed distance: it is 103 after the bar closing at 108 and 101
after the bar closing at 106. -/
theorem trailing_stop_follows_close :
    ((loopFinal trailStrategy {} [tb0, tb1, tb2]).openPosition.bind
      (fun p => p.curStopPrice)) = some 103 ∧
    ((loopFinal trailStrategy {} [tb0, tb1, tb2, tb3]).openPosition.bind
      (fun p => p.curStopPrice)) = some 101 := by
  constructor <;> with_unfolding_all rfl

/-- Claim C9: `updatePosition` divides by the unit risk without a zero guard;
on a reachable run (Long entry at 100 with stop distance 5, next bar opening
exactly at the stop price 95) the unit risk is zero and `curRMultiple` is the
JS division `profit / 0 = -Infinity`. -/
theorem updatePosition_zero_unit_risk_reachable :
    ((loopFinal stopStrategy {} [sb0, sb1]).openPosition.bind
      (fun p => p.curStopPrice)) = some 95 ∧
    sb2.«open» = 95 ∧
    jsDiv (-5) 0 = JReal.negInf ∧
    ((loopFinal stopStrategy {} [sb0, sb1, sb2]).openPosition.bind
      (fun p => p.curRMultiple)) = some JReal.negInf := by
  refine ⟨?_, ?_, ?_, ?_⟩ <;> with_unfolding_all rfl

/-- Claim C3 (counterexample): with rate-of-return recording on, the
immediate-exit run produces a trade with `holdingPeriod = 1` whose
rate-of-return series has length 1, not `holdingPeriod + 1 = 2`. -/
theorem ror_series_length_cex :
    backtest quickExitStrategy [qb0, qb1, qb2] { recordRateOfReturn := true } =
      .ok [quickExitTrade] ∧
    quickExitTrade.holdingPeriod = 1 ∧
    (quickExitTrade.rateOfReturnSeries.map List.length) = some 1 ∧
    ¬ (quickExitTrade.rateOfReturnSeries.map List.length) =
      some (quickExitTrade.holdingPeriod + 1) := by
  refine ⟨?_, ?_, ?_, ?_⟩
  · with_unfolding_all rfl
  · with_unfolding_all rfl
  · with_unfolding_all rfl
  · with_unfolding_all decide

theorem updatePosition_hp_ror (p : Position) (bar : Bar) :
    (updatePosition p bar).holdingPeriod = p.holdingPeriod + 1 ∧
    (updatePosition p bar).rateOfReturnSeries = p.rateOfReturnSeries := by
  cases h : p.curStopPrice <;> simp [updatePosition, h]

theorem enterBasePosition_hp_ror (strategy : Strategy) (options : BacktestOptions)
    (dir : TradeDirection) (bar : Bar) (lookback : List Bar) :
    (enterBasePosition strategy options dir bar lookback).holdingPeriod = 0 ∧
    (enterBasePosition strategy options dir bar lookback).rateOfReturnSeries =
      (if options.recordRateOfReturn then some [] else none) := by
  cases h1 : strategy.stopLoss <;> cases h2 : strategy.profitTarget <;>
    cases h3 : options.recordRateOfReturn <;>
    simp [enterBasePosition, h1, h2, h3]

theorem trailEntry_hp_ror (strategy : Strategy) (options : BacktestOptions)
    (pos : Position) (bar : Bar) (lookback : List Bar) :
    (applyTrailingStopOnEntry strategy options pos bar lookback).holdingPeriod =
      pos.holdingPeriod ∧
    (applyTrailingStopOnEntry strategy options pos bar lookback).rateOfReturnSeries =
      pos.rateOfReturnSeries := by
  cases h1 : strategy.trailingStopLoss <;> cases h2 : pos.initialStopPrice <;>
    cases h3 : options.recordStopPrice <;>
    simp [applyTrailingStopOnEntry, h1, h2, h3]

theorem trailUpdate_hp_ror (strategy : Strategy) (options : BacktestOptions)
    (pos : Position) (bar : Bar) (lookback : List Bar) :
    (updateTrailingStop strategy options pos bar lookback).holdingPeriod =
      pos.holdingPeriod ∧
    (updateTrailingStop strategy options pos bar lookback).rateOfReturnSeries =
      pos.rateOfReturnSeries := by
  cases h1 : strategy.trailingStopLoss <;> cases h3 : options.recordStopPrice <;>
    simp [updateTrailingStop, h1, h3]

theorem runUp_hp_ror (pos : Position) (bar : Bar) :
    (applyRunUp pos bar).holdingPeriod = pos.holdingPeriod ∧
    (applyRunUp pos bar).rateOfReturnSeries = pos.rateOfReturnSeries := by
  cases h : pos.direction <;> simp [applyRunUp, h] <;> split <;> simp

theorem finalizePosition_hp_ror (p : Position) (exitTime : ℤ) (price : ℚ)
    (reason : String) (fees : ℚ) :
    (finalizePosition p exitTime price reason fees).holdingPeriod = p.holdingPeriod + 1 ∧
    ((finalizePosition p exitTime price reason fees).rateOfReturnSeries).map List.length =
      p.rateOfReturnSeries.map (fun l => l.length + 1) := by
  cases h : p.rateOfReturnSeries <;> simp [finalizePosition, h]

theorem stepPositionUpdate_hp_ror (options : BacktestOptions) (pos : Position) (bar : Bar) :
    (stepPositionUpdate options pos bar).holdingPeriod = pos.holdingPeriod + 1 ∧
    ((stepPositionUpdate options pos bar).rateOfReturnSeries).map List.length =
      (if options.recordRateOfReturn then
        pos.rateOfReturnSeries.map (fun l => l.length + 1)
       else pos.rateOfReturnSeries.map List.length) := by
  have h1 := updatePosition_hp_ror pos bar
  cases hcr : (updatePosition pos bar).curRiskPct <;>
    cases hrk : options.recordRisk <;>
    cases hror : options.recordRateOfReturn <;>
    cases hrs : pos.rateOfReturnSeries <;>
    simp [stepPositionUpdate, hcr, hrk, hror, hrs, h1.1, h1.2]

theorem stepBar_rorInv (strategy : Strategy) (options : BacktestOptions) (lb : ℕ)
    (fees : ℚ) (s : LoopState) (bar : Bar) (h : StateRorInv options s) :
    StateRorInv options (stepBar strategy options lb fees s bar) := by
  obtain ⟨buf, status, ep, er, dir, op, trades⟩ := s
  obtain ⟨hpos, htr⟩ := h
  unfold stepBar
  dsimp only at hpos htr ⊢
  split
  · exact ⟨hpos, htr⟩
  · cases status with
    | None =>
      dsimp only
      split <;> exact ⟨hpos, htr⟩
    | Enter =>
      dsimp only
      have h4 := enterBasePosition_hp_ror strategy options dir bar (pushBuffer lb buf bar)
      have h5 := trailEntry_hp_ror strategy options
        (enterBasePosition strategy options dir bar (pushBuffer lb buf bar)) bar
        (pushBuffer lb buf bar)
      have h6 := runUp_hp_ror
        (applyTrailingStopOnEntry strategy options
          (enterBasePosition strategy options dir bar (pushBuffer lb buf bar)) bar
          (pushBuffer lb buf bar)) bar
      have hnew : ∀ p, some (applyRunUp (applyTrailingStopOnEntry strategy options
          (enterBasePosition strategy options dir bar (pushBuffer lb buf bar)) bar
          (pushBuffer lb buf bar)) bar) = some p → RorOk options p := by
        rintro p hp hrec
        cases hp
        refine ⟨[], ?_, ?_⟩
        · rw [h6.2, h5.2, h4.2, if_pos hrec]
        · rw [h6.1, h5.1, h4.1]
          rfl
      split <;> exact ⟨hnew, htr⟩
    | Position =>
      dsimp only
      rcases op with _ | pos
      · exact ⟨hpos, htr⟩
      · dsimp only
        have hp0 : RorOk options pos := hpos pos rfl
        have hup := stepPositionUpdate_hp_ror options pos bar
        have h5 := trailUpdate_hp_ror strategy options (stepPositionUpdate options pos bar)
          bar (pushBuffer lb buf bar)
        have h6 := runUp_hp_ror
          (updateTrailingStop strategy options (stepPositionUpdate options pos bar) bar
            (pushBuffer lb buf bar)) bar
        have hnew : ∀ p, some (applyRunUp (updateTrailingStop strategy options
            (stepPositionUpdate options pos bar) bar (pushBuffer lb buf bar)) bar) = some p →
            RorOk options p := by
          rintro p hp hrec
          cases hp
          obtain ⟨l, hl, hlen⟩ := hp0 hrec
          simp only [hrec, eq_self_iff_true, if_true, hl] at hup
          rcases hx : (stepPositionUpdate options pos bar).rateOfReturnSeries with _ | l2
          · rw [hx] at hup
            simp at hup
          · rw [hx] at hup
            simp only [Option.map_some'] at hup
            refine ⟨l2, ?_, ?_⟩
            · rw [h6.2, h5.2, hx]
            · rw [h6.1, h5.1, hup.1, Option.some_injective _ hup.2, hlen]
        split <;> exact ⟨hnew, htr⟩
    | Exit =>
      dsimp only
      rcases op with _ | pos
      · exact ⟨hpos, htr⟩
      · refine ⟨by rintro p ⟨⟩, ?_⟩
        intro t ht
        rcases List.mem_append.mp ht with hold | hnewm
        · exact htr t hold
        · have hts : t = finalizePosition pos bar.time (ep.getD bar.«open»)
              (er.getD "exit-rule") fees := List.mem_singleton.mp hnewm
          intro hrecOn
          obtain ⟨l, hl, hlen⟩ := hpos pos rfl hrecOn
          have hf := finalizePosition_hp_ror pos bar.time (ep.getD bar.«open»)
            (er.getD "exit-rule") fees
          rw [hl] at hf
          obtain ⟨l2, hl2, hlen2⟩ : ∃ l2,
              (finalizePosition pos bar.time (ep.getD bar.«open»)
                (er.getD "exit-rule") fees).rateOfReturnSeries = some l2 ∧
              l2.length = l.length + 1 := by
            rcases hx : (finalizePosition pos bar.time (ep.getD bar.«open»)
                (er.getD "exit-rule") fees).rateOfReturnSeries with _ | l2
            · rw [hx] at hf; simp at hf
            · rw [hx] at hf
              simp only [Option.map_some'] at hf
              exact ⟨l2, rfl, Option.some_injective _ hf.2⟩
          subst hts
          exact ⟨l2, hl2, by rw [hlen2, hlen, hf.1]⟩

theorem finalize_tradeRorOk (options : BacktestOptions) (pos : Position) (exitTime : ℤ)
    (price : ℚ) (reason : String) (fees : ℚ) (h : RorOk options pos) :
    TradeRorOk options (finalizePosition pos exitTime price reason fees) := by
  intro hrec
  obtain ⟨l, hl, hlen⟩ := h hrec
  have hf := finalizePosition_hp_ror pos exitTime price reason fees
  rw [hl] at hf
  rcases hx : (finalizePosition pos exitTime price reason fees).rateOfReturnSeries with _ | l2
  · rw [hx] at hf
    simp at hf
  · rw [hx] at hf
    simp only [Option.map_some'] at hf
    exact ⟨l2, rfl, by rw [hf.1, Option.some_injective _ hf.2, hlen]⟩

theorem loopFinal_rorInv (strategy : Strategy) (options : BacktestOptions)
    (bars : List Bar) : StateRorInv options (loopFinal strategy options bars) := by
  unfold loopFinal
  refine foldl_preserves _ _
    (fun s b hs => stepBar_rorInv strategy options _ _ s b hs) _ _ ⟨?_, ?_⟩
  · rintro p ⟨⟩
  · intro t ht
    exact absurd ht (List.not_mem_nil t)

/-- Claim C3 (amended): for every trade produced by `backtest` with
`recordRateOfReturn` on, the rate-of-return series has exactly
`holdingPeriod` samples (the final sample is matched by the extra
`holdingPeriod` increment in `finalizePosition`), not `holdingPeriod + 1`. -/
theorem backtest_ror_series_length (strategy : Strategy) (bars : List Bar)
    (options : BacktestOptions) (trades : List Trade) (t : Trade)
    (hok : backtest strategy bars options = .ok trades) (ht : t ∈ trades)
    (hror : options.recordRateOfReturn = true) :
    ∃ l, t.rateOfReturnSeries = some l ∧ l.length = t.holdingPeriod := by
  have hinv := loopFinal_rorInv strategy options bars
  unfold backtest at hok
  split at hok
  · exact absurd hok (by simp)
  · split at hok
    · exact absurd hok (by simp)
    · dsimp only at hok
      split at hok
      · rename_i pos lastBar hpos hlast
        have htr : trades = (loopFinal strategy options bars).completedTrades ++
            [finalizePosition pos (lastBar.time + inferredTimeframe bars) lastBar.close
              "finalize" (effFees strategy)] := by
          injection hok with h
          exact h.symm
        rw [htr] at ht
        rcases List.mem_append.mp ht with hold | hnewm
        · exact hinv.2 t hold hror
        · rw [List.mem_singleton.mp hnewm]
          exact finalize_tradeRorOk options pos _ _ _ _ (hinv.1 pos hpos) hror
      · have htr : trades = (loopFinal strategy options bars).completedTrades := by
          injection hok with h
          exact h.symm
        rw [htr] at ht
        exact hinv.2 t ht hror

/-- Witness for `backtest_ror_series_length` on the immediate-exit run. -/
theorem backtest_ror_series_length_witness :
    ∃ l, quickExitTrade.rateOfReturnSeries = some l ∧
      l.length = quickExitTrade.holdingPeriod :=
  backtest_ror_series_length quickExitStrategy [qb0, qb1, qb2]
    { recordRateOfReturn := true } quickExitTrades quickExitTrade
    (by with_unfolding_all rfl) (by with_unfolding_all decide) rfl

theorem stepBar_statusInv (strategy : Strategy) (options : BacktestOptions) (lb : ℕ)
    (fees : ℚ) (s : LoopState) (bar : Bar) (h : StatusPosInv s) :
    StatusPosInv (stepBar strategy options lb fees s bar) := by
  obtain ⟨buf, status, ep, er, dir, op, trades⟩ := s
  unfold StatusPosInv at h ⊢
  dsimp only at h ⊢
  unfold stepBar
  dsimp only
  split
  · exact h
  · cases status with
    | None =>
      dsimp only
      have hnone : op = none := h.mpr (Or.inl rfl)
      split <;> simp [hnone]
    | Enter =>
      dsimp only
      split <;> simp
    | Position =>
      dsimp only
      rcases op with _ | pos
      · exact h
      · dsimp only
        split <;> simp
    | Exit =>
      dsimp only
      rcases op with _ | pos
      · exact h
      · simp

theorem loopFinal_statusInv (strategy : Strategy) (options : BacktestOptions)
    (bars : List Bar) : StatusPosInv (loopFinal strategy options bars) := by
  unfold loopFinal
  refine foldl_preserves _ _
    (fun s b hs => stepBar_statusInv strategy options _ _ s b hs) _ _ ?_
  unfold StatusPosInv
  simp [initState]

/-- Claim C8: a state transition still pending when the bar series ends is
never committed as signalled.  If the final loop state is `Enter` (the entry
rule signalled on the last bar), `backtest` returns only the already completed
trades; if it is `Exit` (an exit was recorded on the last bar), the still-open
position is finalized at the last bar's close with reason `"finalize"`,
discarding the recorded exit price and exit reason. -/
theorem pending_transitions_not_committed (strategy : Strategy) (bars : List Bar)
    (options : BacktestOptions) (hne : bars ≠ [])
    (hlb : effLookbackPeriod strategy ≤ bars.length) :
    ((loopFinal strategy options bars).positionStatus = .Enter →
      backtest strategy bars options = .ok (loopFinal strategy options bars).completedTrades) ∧
    ((loopFinal strategy options bars).positionStatus = .Exit →
      ∀ lb, (prepSeries strategy bars).getLast? = some lb →
        ∃ p, (loopFinal strategy options bars).openPosition = some p ∧
          backtest strategy bars options =
            .ok ((loopFinal strategy options bars).completedTrades ++
              [finalizePosition p (lb.time + inferredTimeframe bars) lb.close "finalize"
                (effFees strategy)]) ∧
          (finalizePosition p (lb.time + inferredTimeframe bars) lb.close "finalize"
            (effFees strategy)).exitReason = "finalize" ∧
          (finalizePosition p (lb.time + inferredTimeframe bars) lb.close "finalize"
            (effFees strategy)).exitPrice = lb.close) := by
  have hinv := loopFinal_statusInv strategy options bars
  have h1 : ¬ bars.isEmpty = true := by simp [hne]
  have h2 : ¬ bars.length < effLookbackPeriod strategy := not_lt.mpr hlb
  constructor
  · intro hEnter
    have hnone : (loopFinal strategy options bars).openPosition = none :=
      hinv.mpr (Or.inr hEnter)
    unfold backtest
    rw [if_neg h1, if_neg h2]
    dsimp only
    rw [hnone]
  · intro hExit lb hlast
    have hsome : (loopFinal strategy options bars).openPosition ≠ none := by
      intro hn
      rcases hinv.mp hn with hc | hc <;> rw [hExit] at hc <;> exact PositionStatus.noConfusion hc
    obtain ⟨p, hp⟩ := Option.ne_none_iff_exists.mp hsome
    refine ⟨p, hp.symm, ?_, rfl, rfl⟩
    unfold backtest
    rw [if_neg h1, if_neg h2]
    dsimp only
    rw [← hp, hlast]

/-- Witness for `pending_transitions_not_committed`: an entry signal on the
only bar produces no trade; a stop-loss hit on the last bar is finalized. -/
theorem pending_transitions_witness :
    backtest holdStrategy [hb0] {} = .ok (loopFinal holdStrategy {} [hb0]).completedTrades ∧
    (∃ p, (loopFinal stopStrategy {} [kb0, kb1]).openPosition = some p ∧
      backtest stopStrategy [kb0, kb1] {} =
        .ok ((loopFinal stopStrategy {} [kb0, kb1]).completedTrades ++
          [finalizePosition p (kb1.time + inferredTimeframe [kb0, kb1]) kb1.close "finalize"
            (effFees stopStrategy)]) ∧
      (finalizePosition p (kb1.time + inferredTimeframe [kb0, kb1]) kb1.close "finalize"
        (effFees stopStrategy)).exitReason = "finalize" ∧
      (finalizePosition p (kb1.time + inferredTimeframe [kb0, kb1]) kb1.close "finalize"
        (effFees stopStrategy)).exitPrice = kb1.close) :=
  ⟨(pending_transitions_not_committed holdStrategy [hb0] {} (by simp) (by decide)).1
      (by with_unfolding_all rfl),
   (pending_transitions_not_committed stopStrategy [kb0, kb1] {} (by simp) (by decide)).2
      (by with_unfolding_all rfl) kb1 (by with_unfolding_all rfl)⟩

/-- Claim C6: a position still open after the last bar is finalized at the
last bar's close, with exit time `last.time + timeframe`, reason
`"finalize"`, and `timeframe = round((last.time - first.time) / bar_count)`. -/
theorem backtest_finalizes_open_position (strategy : Strategy) (bars : List Bar)
    (options : BacktestOptions) (p : Position) (fb lb lbi : Bar)
    (hne : bars ≠ []) (hlb : effLookbackPeriod strategy ≤ bars.length)
    (hp : (loopFinal strategy options bars).openPosition = some p)
    (hfb : bars.head? = some fb) (hlast : bars.getLast? = some lb)
    (hplast : (prepSeries strategy bars).getLast? = some lbi) :
    backtest strategy bars options =
      .ok ((loopFinal strategy options bars).completedTrades ++
        [finalizePosition p
          (lbi.time + jsRound (((lb.time - fb.time : ℤ) : ℚ) / (bars.length : ℚ)))
          lbi.close "finalize" (effFees strategy)]) ∧
    (finalizePosition p
      (lbi.time + jsRound (((lb.time - fb.time : ℤ) : ℚ) / (bars.length : ℚ)))
      lbi.close "finalize" (effFees strategy)).exitTime =
        lbi.time + jsRound (((lb.time - fb.time : ℤ) : ℚ) / (bars.length : ℚ)) ∧
    (finalizePosition p
      (lbi.time + jsRound (((lb.time - fb.time : ℤ) : ℚ) / (bars.length : ℚ)))
      lbi.close "finalize" (effFees strategy)).exitPrice = lbi.close ∧
    (finalizePosition p
      (lbi.time + jsRound (((lb.time - fb.time : ℤ) : ℚ) / (bars.length : ℚ)))
      lbi.close "finalize" (effFees strategy)).exitReason = "finalize" := by
  have h1 : ¬ bars.isEmpty = true := by simp [hne]
  have h2 : ¬ bars.length < effLookbackPeriod strategy := not_lt.mpr hlb
  have htf : inferredTimeframe bars =
      jsRound (((lb.time - fb.time : ℤ) : ℚ) / (bars.length : ℚ)) := by
    unfold inferredTimeframe
    rw [hfb, hlast]
  refine ⟨?_, rfl, rfl, rfl⟩
  unfold backtest
  rw [if_neg h1, if_neg h2]
  dsimp only
  rw [hp, hplast, htf]

/-- Witness for `backtest_finalizes_open_position` on the hold-to-the-end
run. -/
theorem backtest_finalizes_open_position_witness :
    backtest holdStrategy [hb0, hb1] {} =
      .ok ((loopFinal holdStrategy {} [hb0, hb1]).completedTrades ++
        [finalizePosition holdFinalPosition
          (hb1.time + jsRound (((hb1.time - hb0.time : ℤ) : ℚ) / (2 : ℚ)))
          hb1.close "finalize" (effFees holdStrategy)]) ∧
    (finalizePosition holdFinalPosition
      (hb1.time + jsRound (((hb1.time - hb0.time : ℤ) : ℚ) / (2 : ℚ)))
      hb1.close "finalize" (effFees holdStrategy)).exitTime =
        hb1.time + jsRound (((hb1.time - hb0.time : ℤ) : ℚ) / (2 : ℚ)) ∧
    (finalizePosition holdFinalPosition
      (hb1.time + jsRound (((hb1.time - hb0.time : ℤ) : ℚ) / (2 : ℚ)))
      hb1.close "finalize" (effFees holdStrategy)).exitPrice = hb1.close ∧
    (finalizePosition holdFinalPosition
      (hb1.time + jsRound (((hb1.time - hb0.time : ℤ) : ℚ) / (2 : ℚ)))
      hb1.close "finalize" (effFees holdStrategy)).exitReason = "finalize" :=
  backtest_finalizes_open_position holdStrategy [hb0, hb1] {} holdFinalPosition hb0 hb1 hb1
    (by simp) (by decide) (by with_unfolding_all rfl) rfl rfl rfl

theorem foldl_rel {α β : Type} (R : α → α → Prop) (step1 step2 : α → β → α)
    (h : ∀ s1 s2 b, R s1 s2 → R (step1 s1 b) (step2 s2 b)) :
    ∀ (l : List β) (s1 s2 : α), R s1 s2 → R (l.foldl step1 s1) (l.foldl step2 s2) := by
  intro l
  induction l with
  | nil => intro s1 s2 hs; exact hs
  | cons b t ih => intro s1 s2 hs; exact ih _ _ (h s1 s2 b hs)

theorem finalizePosition_growth_fee (p : Position) (exitTime : ℤ) (price : ℚ)
    (reason : String) (f : ℚ) :
    (finalizePosition p exitTime price reason f).growth =
      (1 - f) * (finalizePosition p exitTime price reason 0).growth := by
  cases hd : p.direction <;> simp [finalizePosition, hd] <;> ring

theorem stepBar_feesRel (strategy : Strategy) (options : BacktestOptions) (lb : ℕ)
    (f : ℚ) (s1 s2 : LoopState) (bar : Bar) (h : FeesRel f s1 s2) :
    FeesRel f (stepBar strategy options lb f s1 bar) (stepBar strategy options lb 0 s2 bar) := by
  obtain ⟨buf, status, ep, er, dir, op, trades⟩ := s1
  obtain ⟨buf2, status2, ep2, er2, dir2, op2, trades2⟩ := s2
  obtain ⟨hb, hs, hep, her, hd, hop, htr⟩ := h
  dsimp only at hb hs hep her hd hop htr
  subst hb hs hep her hd hop
  unfold stepBar
  dsimp only
  by_cases hc : (pushBuffer lb buf bar).length < lb
  · simp only [if_pos hc]
    exact ⟨rfl, rfl, rfl, rfl, rfl, rfl, htr⟩
  · simp only [if_neg hc]
    cases status with
    | None =>
      dsimp only
      cases hent : strategy.entryRule ⟨bar, pushBuffer lb buf bar⟩ <;>
        exact ⟨rfl, rfl, rfl, rfl, rfl, rfl, htr⟩
    | Enter =>
      dsimp only
      cases hec : exitOnCondition strategy
          (enterBasePosition strategy options dir bar (pushBuffer lb buf bar)) bar
          (pushBuffer lb buf bar) with
      | none => exact ⟨rfl, rfl, rfl, rfl, rfl, rfl, htr⟩
      | some pr =>
        obtain ⟨pe, re⟩ := pr
        exact ⟨rfl, rfl, rfl, rfl, rfl, rfl, htr⟩
    | Position =>
      dsimp only
      rcases op with _ | pos
      · exact ⟨rfl, rfl, rfl, rfl, rfl, rfl, htr⟩
      · dsimp only
        cases hec : exitOnCondition strategy (stepPositionUpdate options pos bar) bar
            (pushBuffer lb buf bar) with
        | none => exact ⟨rfl, rfl, rfl, rfl, rfl, rfl, htr⟩
        | some pr =>
          obtain ⟨pe, re⟩ := pr
          exact ⟨rfl, rfl, rfl, rfl, rfl, rfl, htr⟩
    | Exit =>
      dsimp only
      rcases op with _ | pos
      · exact ⟨rfl, rfl, rfl, rfl, rfl, rfl, htr⟩
      · refine ⟨rfl, rfl, rfl, rfl, rfl, rfl, ?_⟩
        dsimp only
        rw [List.map_append, List.map_append, htr]
        simp only [List.map_cons, List.map_nil]
        rw [finalizePosition_growth_fee]

theorem prepSeries_fees (strategy : Strategy) (v : Option ℚ) (bars : List Bar) :
    prepSeries { strategy with fees := v } bars = prepSeries strategy bars := by
  cases strategy
  rfl

theorem effLookback_fees (strategy : Strategy) (v : Option ℚ) :
    effLookbackPeriod { strategy with fees := v } = effLookbackPeriod strategy := by
  cases strategy
  rfl

theorem effFees_some (strategy : Strategy) (q : ℚ) :
    effFees { strategy with fees := some q } = q := by
  cases strategy
  rfl

theorem stepBar_fees_fun (strategy : Strategy) (v : Option ℚ) (options : BacktestOptions)
    (lb : ℕ) (fee : ℚ) :
    stepBar { strategy with fees := v } options lb fee = stepBar strategy options lb fee := by
  cases strategy
  rfl

set_option maxHeartbeats 1600000 in
/-- Claim C5: fees are applied exactly once per trade, at position close:
the recorded growth is the raw growth scaled by `1 - fees`, and a whole run
with fee `f` produces exactly the trade growths of the zero-fee run scaled by
`1 - f`. -/
theorem fees_applied_once_at_close :
    (∀ (p : Position) (exitTime : ℤ) (price : ℚ) (reason : String) (f : ℚ),
      (finalizePosition p exitTime price reason f).growth =
        (1 - f) * (finalizePosition p exitTime price reason 0).growth) ∧
    (∀ (strategy : Strategy) (bars : List Bar) (options : BacktestOptions) (f : ℚ)
      (ts ts0 : List Trade),
      backtest { strategy with fees := some f } bars options = .ok ts →
      backtest { strategy with fees := some 0 } bars options = .ok ts0 →
      ts.map (fun t => t.growth) = ts0.map (fun t => (1 - f) * t.growth)) := by
  refine ⟨finalizePosition_growth_fee, ?_⟩
  intro strategy bars options f ts ts0 hf h0
  have hstep : ∀ s1 s2 b, FeesRel f s1 s2 →
      FeesRel f (stepBar strategy options (effLookbackPeriod strategy) f s1 b)
        (stepBar strategy options (effLookbackPeriod strategy) 0 s2 b) :=
    fun s1 s2 b hr => stepBar_feesRel strategy options (effLookbackPeriod strategy) f s1 s2 b hr
  have hrel : FeesRel f (loopFinal { strategy with fees := some f } options bars)
      (loopFinal { strategy with fees := some 0 } options bars) := by
    unfold loopFinal
    rw [prepSeries_fees strategy (some f), prepSeries_fees strategy (some 0),
      effLookback_fees strategy (some f), effLookback_fees strategy (some 0),
      effFees_some strategy f, effFees_some strategy 0,
      stepBar_fees_fun strategy (some f), stepBar_fees_fun strategy (some 0)]
    exact foldl_rel (FeesRel f) (stepBar strategy options (effLookbackPeriod strategy) f)
      (stepBar strategy options (effLookbackPeriod strategy) 0) hstep
      (prepSeries strategy bars) initState initState ⟨rfl, rfl, rfl, rfl, rfl, rfl, rfl⟩
  obtain ⟨hb, hs, hep, her, hd, hop, htr⟩ := hrel
  unfold backtest at hf h0
  split at hf
  · exact absurd hf (by simp)
  · split at hf
    · exact absurd hf (by simp)
    · split at h0
      · exact absurd h0 (by simp)
      · split at h0
        · exact absurd h0 (by simp)
        · dsimp only at hf h0
          split at hf
          · rename_i pos lastBar hpos hlast
            rw [hop] at hpos
            rw [prepSeries_fees strategy (some f)] at hlast
            rw [← prepSeries_fees strategy (some 0) bars] at hlast
            split at h0
            · rename_i pos2 lastBar2 hpos2 hlast2
              rw [hpos] at hpos2
              rw [hlast] at hlast2
              injection hpos2 with hpw
              injection hlast2 with hlw
              injection hf with hfw
              injection h0 with h0w
              rw [← hfw, ← h0w, hpw, hlw]
              rw [List.map_append, List.map_append, htr]
              simp only [List.map_cons, List.map_nil]
              rw [effFees_some strategy f, effFees_some strategy 0, finalizePosition_growth_fee]
            · rename_i hcontra
              exact (hcontra pos lastBar hpos hlast).elim
          · rename_i hcontra
            split at h0
            · rename_i pos2 lastBar2 hpos2 hlast2
              rw [← hop] at hpos2
              rw [prepSeries_fees strategy (some 0)] at hlast2
              rw [← prepSeries_fees strategy (some f) bars] at hlast2
              exact (hcontra pos2 lastBar2 hpos2 hlast2).elim
            · injection hf with hfw
              injection h0 with h0w
              rw [← hfw, ← h0w, htr]

/-- Witness for `fees_applied_once_at_close` on the hold-to-the-end run with
a 10% fee. -/
theorem fees_applied_once_witness :
    holdTradesFee.map (fun t => t.growth) =
      holdTradesZeroFee.map (fun t => (1 - (1 / 10 : ℚ)) * t.growth) :=
  fees_applied_once_at_close.2 holdStrategy [hb0, hb1] {} (1 / 10)
    holdTradesFee holdTradesZeroFee
    (by with_unfolding_all rfl) (by with_unfolding_all rfl)

theorem analyzeStep_peak_mono (sd : Option ℤ) (tf : JReal) (st : AnalyzeState) (t : Trade) :
    st.peakCapital ≤ (analyzeStep sd tf st t).peakCapital := by
  unfold analyzeStep
  cases hrp : t.riskPct <;> dsimp only <;>
    cases hrl : st.rateOfReturnList <;> cases sd <;> dsimp only <;>
    split <;> dsimp only <;>
    first
      | exact le_refl _
      | exact le_of_not_lt (by assumption)

theorem analyzeStep_dd (sd : Option ℤ) (tf : JReal) (st : AnalyzeState) (t : Trade)
    (h : st.maxDrawdown ≤ 0 ∧ st.maxDrawdownPct ≤ 0) :
    (analyzeStep sd tf st t).maxDrawdown ≤ 0 ∧
      (analyzeStep sd tf st t).maxDrawdownPct ≤ 0 := by
  unfold analyzeStep
  cases hrp : t.riskPct <;> dsimp only <;>
    cases hrl : st.rateOfReturnList <;> cases sd <;> dsimp only <;>
    (repeat' split) <;>
    exact ⟨le_trans (min_le_right _ _) h.1, le_trans (min_le_right _ _) h.2⟩

theorem analyzeLoop_dd (sd : Option ℤ) (tf : JReal) (cap : ℚ) (trades : List Trade)
    (rrl : Option (List ℚ)) :
    (analyzeLoop sd tf cap trades rrl).maxDrawdown ≤ 0 ∧
      (analyzeLoop sd tf cap trades rrl).maxDrawdownPct ≤ 0 := by
  unfold analyzeLoop
  refine foldl_preserves
    (fun st => st.maxDrawdown ≤ 0 ∧ st.maxDrawdownPct ≤ 0) _
    (fun st t hst => analyzeStep_dd sd tf st t hst) trades _ ?_
  exact ⟨le_refl 0, le_refl 0⟩

/-- Claim C7: in the analyzer's reducer loop, `peakCapital` is monotone
non-decreasing from iteration to iteration, and `maxDrawdown` and
`maxDrawdownPct` are non-positive throughout and in the returned Analysis. -/
theorem analyzer_invariants :
    (∀ (sd : Option ℤ) (tf : JReal) (st : AnalyzeState) (t : Trade),
      st.peakCapital ≤ (analyzeStep sd tf st t).peakCapital) ∧
    (∀ (now : ℤ) (cap : ℚ) (trades : List Trade) (opts : AnalyzeOptions)
      (a : Analysis) (opts2 : AnalyzeOptions),
      analyze now cap trades opts = .ok (a, opts2) →
      a.maxDrawdown ≤ 0 ∧ a.maxDrawdownPct ≤ 0) := by
  refine ⟨analyzeStep_peak_mono, ?_⟩
  intro now cap trades opts a opts2 h
  unfold analyze at h
  repeat' first
    | split at h
    | (dsimp only at h; split at h)
  all_goals simp only [Except.ok.injEq, Prod.mk.injEq, reduceCtorEq] at h
  all_goals
    obtain ⟨ha, ho⟩ := h
    subst ha
    exact analyzeLoop_dd _ _ cap trades _

/-- Witness for `analyzer_invariants` on the empty-trades run. -/
theorem analyzer_invariants_witness :
    emptyTradesRun.1.maxDrawdown ≤ 0 ∧ emptyTradesRun.1.maxDrawdownPct ≤ 0 :=
  analyzer_invariants.2 0 1000 [] {} emptyTradesRun.1 emptyTradesRun.2
    (by with_unfolding_all rfl)

/-- Claim C4 (counterexample): with no trades, `averageProfitPerTrade` and
`returnOnAccount` are the JS division `0 / 0 = NaN`, not zero. -/
theorem analyze_empty_zero_cex :
    (analyze 0 1000 [] {}).toOption.map (fun pr => pr.1.averageProfitPerTrade) =
      some JReal.nan ∧
    ¬ (analyze 0 1000 [] {}).toOption.map (fun pr => pr.1.averageProfitPerTrade) =
      some (JReal.num 0) ∧
    (analyze 0 1000 [] {}).toOption.map (fun pr => pr.1.returnOnAccount) =
      some JReal.nan := by
  refine ⟨?_, ?_, ?_⟩
  · with_unfolding_all rfl
  · with_unfolding_all decide
  · with_unfolding_all rfl

/-- Claim C4 (amended): for every `startingCapital > 0`, `analyze` on an
empty trade list succeeds (with default options) and returns
`finalCapital = startingCapital`, but `averageProfitPerTrade` and
`returnOnAccount` are `NaN` (the JS division `0 / 0`), not zero. -/
theorem analyze_empty_trades (now : ℤ) (cap : ℚ) (hcap : 0 < cap) :
    (∃ a o, analyze now cap [] {} = .ok (a, o)) ∧
    (∀ (opts : AnalyzeOptions) (a : Analysis) (o : AnalyzeOptions),
      analyze now cap [] opts = .ok (a, o) →
      a.finalCapital = cap ∧ a.averageProfitPerTrade = JReal.nan ∧
        a.returnOnAccount = JReal.nan) := by
  have hguard : ¬ cap ≤ 0 := not_le.mpr hcap
  have hfields : ∀ (sd : Option ℤ) (tf : JReal) (rrl : Option (List ℚ)),
      (analyzeResult cap [] (analyzeLoop sd tf cap [] rrl)).finalCapital = cap ∧
      (analyzeResult cap [] (analyzeLoop sd tf cap [] rrl)).averageProfitPerTrade =
        JReal.nan ∧
      (analyzeResult cap [] (analyzeLoop sd tf cap [] rrl)).returnOnAccount = JReal.nan := by
    intro sd tf rrl
    refine ⟨rfl, ?_, ?_⟩ <;>
      simp [analyzeResult, analyzeLoop, jsDiv, sub_self]
  constructor
  · have hok : analyze now cap [] {} =
        .ok (analyzeResult cap []
          (analyzeLoop none (analyzeTimeframe {} []) cap [] none), {}) := by
      unfold analyze
      rw [if_neg hguard]
    exact ⟨_, _, hok⟩
  · intro opts a o h
    unfold analyze at h
    repeat' first
      | split at h
      | (dsimp only at h; split at h)
    all_goals simp only [Except.ok.injEq, Prod.mk.injEq, reduceCtorEq] at h
    all_goals
      obtain ⟨ha, ho⟩ := h
      subst ha
      exact hfields _ _ _

/-- Witness for `analyze_empty_trades`. -/
theorem analyze_empty_trades_witness :
    emptyTradesRun.1.finalCapital = 1000 ∧
    emptyTradesRun.1.averageProfitPerTrade = JReal.nan ∧
    emptyTradesRun.1.returnOnAccount = JReal.nan :=
  (analyze_empty_trades 0 1000 (by norm_num)).2 {} emptyTradesRun.1 emptyTradesRun.2
    (by with_unfolding_all rfl)

/-- Claim C10: `analyze` mutates its options argument: when
`options.startingDate` is set, a non-zero (truthy) timeframe is available and
`options.endingDate` is undefined, the returned options carry
`endingDate = now` (the wall-clock time) while the other fields are
unchanged; in every other situation the options are returned untouched. -/
theorem analyze_mutates_endingDate (now : ℤ) (cap : ℚ) (trades : List Trade)
    (opts : AnalyzeOptions) (a : Analysis) (opts2 : AnalyzeOptions)
    (h : analyze now cap trades opts = .ok (a, opts2)) :
    (opts.startingDate.isSome = true →
      jsTruthyJ (analyzeTimeframe opts trades) = true →
      opts.endingDate = none →
      opts2.endingDate = some now ∧ opts2.startingDate = opts.startingDate ∧
        opts2.timeframe = opts.timeframe) ∧
    (opts.startingDate = none ∨ jsTruthyJ (analyzeTimeframe opts trades) = false ∨
      opts.endingDate ≠ none → opts2 = opts) := by
  obtain ⟨osd, oed, otf⟩ := opts
  unfold analyze at h
  split at h
  · exact absurd h (by simp)
  · dsimp only at h
    rcases osd with _ | s
    · dsimp only at h
      injection h with hpair
      have ho : (⟨none, oed, otf⟩ : AnalyzeOptions) = opts2 := congrArg Prod.snd hpair
      constructor
      · intro hs _ _
        exact Bool.noConfusion hs
      · intro _
        exact ho.symm
    · dsimp only at h
      by_cases htru : jsTruthyJ (analyzeTimeframe ⟨some s, oed, otf⟩ trades) = true
      · rw [if_pos htru] at h
        rcases oed with _ | e0
        · dsimp only at h
          split at h
          · exact absurd h (by simp)
          · injection h with hpair
            have ho : (⟨some s, some now, otf⟩ : AnalyzeOptions) = opts2 :=
              congrArg Prod.snd hpair
            refine ⟨fun _ _ _ => ?_, fun hdisj => ?_⟩
            · rw [← ho]
              exact ⟨rfl, rfl, rfl⟩
            · rcases hdisj with hc | hc | hc
              · exact Option.noConfusion hc
              · rw [htru] at hc
                exact Bool.noConfusion hc
              · exact absurd rfl hc
        · dsimp only at h
          split at h
          · exact absurd h (by simp)
          · injection h with hpair
            have ho : (⟨some s, some e0, otf⟩ : AnalyzeOptions) = opts2 :=
              congrArg Prod.snd hpair
            refine ⟨fun _ _ hnone => ?_, fun _ => ?_⟩
            · exact Option.noConfusion hnone
            · exact ho.symm
      · rw [if_neg htru] at h
        injection h with hpair
        have ho : (⟨some s, oed, otf⟩ : AnalyzeOptions) = opts2 := congrArg Prod.snd hpair
        refine ⟨fun _ htru2 _ => absurd htru2 htru, fun _ => ho.symm⟩

/-- Witness for `analyze_mutates_endingDate`: starting date 0, timeframe
60000, no ending date, wall clock 999. -/
theorem analyze_mutates_endingDate_witness :
    mutatedOptionsRun.2.endingDate = some 999 ∧
    mutatedOptionsRun.2.startingDate = some 0 ∧
    mutatedOptionsRun.2.timeframe = some 60000 :=
  (analyze_mutates_endingDate 999 1000 [] ⟨some 0, none, some 60000⟩
      mutatedOptionsRun.1 mutatedOptionsRun.2 (by with_unfolding_all rfl)).1
    rfl (by with_unfolding_all rfl) rfl

end Grademark
